import Mathlib

/-!
# RepoRadar — verification of the dual-vector search engine and frontend logic

This file gives a shallow embedding of the parts of the RepoRadar repository
that the checked claims are about:

* the backend `search_similar` merge-and-rerank routine of the vector store
  (the Python implementation in the architecture document, §4.4), modelled with
  rational scores, Python-dict association lists (insertion order preserved,
  update-in-place), and a stable descending sort (Python's `list.sort` with
  `reverse=True` is stable);
* the frontend API client `searchRepos`, the `App` search handler and render
  logic, the `WeightSliders` arithmetic, the `SearchInput` submit handler, and
  the `useTheme` hook.
-/

namespace RepoRadar

/-! ## Backend: data carried by the vector store -/

/-- Payload stored alongside the two vectors of an indexed repository
(architecture document §3.3); only the fields relevant to ranking are kept. -/
structure Payload where
  full_name : String
  stars : ℤ
deriving DecidableEq, Repr

/-- One scored candidate returned by a single-vector-space query
(`self.client.search` result element: an id, a cosine score, a payload). -/
structure ScoredPoint where
  id : ℕ
  score : ℚ
  payload : Payload
deriving DecidableEq, Repr

/-- Value of the `scores` dict built inside `search_similar`:
`{"purpose": ..., "stack": ..., "payload": ...}`. -/
structure MergedEntry where
  purpose : ℚ
  stack : ℚ
  payload : Payload
deriving DecidableEq, Repr

/-- Result record `SearchResult(id=repo_id, score=final, payload=data["payload"])`. -/
structure SearchResult where
  id : ℕ
  score : ℚ
  payload : Payload
deriving DecidableEq, Repr

/-- The `scores` Python dict, as an association list in insertion order. -/
abbrev ScoreDict := List (ℕ × MergedEntry)

/-- Python dict read `scores[k]` (keys are unique in a dict). -/
def dictLookup : ScoreDict → ℕ → Option MergedEntry
  | [], _ => none
  | p :: m, k => if p.1 = k then some p.2 else dictLookup m k

/-- Python dict write `scores[k] = v`: update in place when the key is
present, append at the end otherwise (dicts preserve insertion order). -/
def dictSet : ScoreDict → ℕ → MergedEntry → ScoreDict
  | [], k, v => [(k, v)]
  | p :: m, k, v => if p.1 = k then (k, v) :: m else p :: dictSet m k v

/-- Keys of the dict, in insertion order. -/
def dictKeys (m : ScoreDict) : List ℕ := m.map Prod.fst

/-! ## Backend: the merge of `search_similar` -/

/-- First loop of the merge:
`scores[r.id] = {"purpose": r.score, "stack": 0.0, "payload": r.payload}`. -/
def purposeStep (m : ScoreDict) (r : ScoredPoint) : ScoreDict :=
  dictSet m r.id ⟨r.score, 0, r.payload⟩

/-- Second loop of the merge:
`if r.id in scores: scores[r.id]["stack"] = r.score`
`else: scores[r.id] = {"purpose": 0.0, "stack": r.score, "payload": r.payload}`. -/
def stackStep (m : ScoreDict) (r : ScoredPoint) : ScoreDict :=
  match dictLookup m r.id with
  | some e => dictSet m r.id { e with stack := r.score }
  | none => m ++ [(r.id, ⟨0, r.score, r.payload⟩)]

/-- The full `scores` dict built by the two merge loops of `search_similar`
from the purpose-space and stack-space query results. -/
def mergeResults (purposeResults stackResults : List ScoredPoint) : ScoreDict :=
  stackResults.foldl stackStep (purposeResults.foldl purposeStep [])

/-- Weighted score `final = w_purpose * data["purpose"] + w_stack * data["stack"]`. -/
def finalScore (wPurpose wStack : ℚ) (e : MergedEntry) : ℚ :=
  wPurpose * e.purpose + wStack * e.stack

/-- The `ranked` list right after the filtering comprehension:
every merged candidate gets its weighted score, and candidates with
`final >= min_score` are kept, in dict insertion order. -/
def rankedOf (purposeResults stackResults : List ScoredPoint)
    (wPurpose wStack minScore : ℚ) : List SearchResult :=
  ((mergeResults purposeResults stackResults).map
      fun p => SearchResult.mk p.1 (finalScore wPurpose wStack p.2) p.2.payload).filter
    fun r => minScore ≤ r.score

/-- Stable insertion of one element into a list sorted by descending score:
the element goes before the first entry whose score is `≤` its own, hence
after every strictly greater entry and before every equal-scored entry that
occurred later in the original list. -/
def insertDesc (x : SearchResult) : List SearchResult → List SearchResult
  | [] => [x]
  | y :: l => if y.score ≤ x.score then x :: y :: l else y :: insertDesc x l

/-- Stable sort by descending score: the meaning of
`ranked.sort(key=lambda x: x.score, reverse=True)` (Python's sort is stable,
and a stable sort w.r.t. a total preorder is unique). -/
def sortDesc : List SearchResult → List SearchResult
  | [] => []
  | x :: l => insertDesc x (sortDesc l)

/-- The body of `search_similar` after the two vector-space queries returned
`purposeResults` and `stackResults`: merge, weight, filter by `min_score`,
sort descending by score, truncate to `limit` (`return ranked[:limit]`). -/
def search_similar (purposeResults stackResults : List ScoredPoint)
    (wPurpose wStack : ℚ) (limit : ℕ) (minScore : ℚ) : List SearchResult :=
  (sortDesc (rankedOf purposeResults stackResults wPurpose wStack minScore)).take limit

/-- Ranking of the merged candidates by `purpose_score` alone
(the spec's reference ordering for the degenerate weight pair `1, 0`):
same stable descending sort, applied to the bare purpose scores. -/
def purposeOnlyRanking (purposeResults stackResults : List ScoredPoint)
    (limit : ℕ) : List SearchResult :=
  (sortDesc ((mergeResults purposeResults stackResults).map
      fun p => SearchResult.mk p.1 p.2.purpose p.2.payload)).take limit

/-- The ordering the claim attributes to the result list: descending
similarity score, ties broken by descending star count, then by identifier. -/
def specTieOrder (a b : SearchResult) : Prop :=
  b.score < a.score ∨ (a.score = b.score ∧
    (b.payload.stars < a.payload.stars ∨
      (a.payload.stars = b.payload.stars ∧ a.id ≤ b.id)))

instance : DecidableRel specTieOrder := by
  unfold specTieOrder
  infer_instance

/-! ## Dict lemmas -/

theorem dictLookup_dictSet_self (m : ScoreDict) (k : ℕ) (v : MergedEntry) :
    dictLookup (dictSet m k v) k = some v := by
  induction m with
  | nil => simp [dictSet, dictLookup]
  | cons p m ih =>
      by_cases h : p.1 = k
      · simp [dictSet, dictLookup, h]
      · simp [dictSet, dictLookup, h, ih]

theorem dictLookup_dictSet_ne (m : ScoreDict) (k k' : ℕ) (v : MergedEntry)
    (h : k' ≠ k) : dictLookup (dictSet m k v) k' = dictLookup m k' := by
  induction m with
  | nil => simp [dictSet, dictLookup, Ne.symm h]
  | cons p m ih =>
      by_cases hp : p.1 = k
      · subst hp
        simp [dictSet, dictLookup, Ne.symm h]
      · simp [dictSet, dictLookup, hp, ih]

theorem dictLookup_append_single_ne (m : ScoreDict) (j k : ℕ) (e : MergedEntry)
    (h : k ≠ j) : dictLookup (m ++ [(j, e)]) k = dictLookup m k := by
  induction m with
  | nil => simp [dictLookup, Ne.symm h]
  | cons p m ih =>
      by_cases hp : p.1 = k
      · simp [dictLookup, hp]
      · simp [dictLookup, hp, ih]

theorem dictLookup_append_single_self (m : ScoreDict) (k : ℕ) (e : MergedEntry)
    (h : dictLookup m k = none) : dictLookup (m ++ [(k, e)]) k = some e := by
  induction m with
  | nil => simp [dictLookup]
  | cons p m ih =>
      by_cases hp : p.1 = k
      · simp [dictLookup, hp] at h
      · simp [dictLookup, hp] at h ⊢
        exact ih h

theorem dictLookup_stackStep_ne (m : ScoreDict) (r : ScoredPoint) (k : ℕ)
    (h : k ≠ r.id) : dictLookup (stackStep m r) k = dictLookup m k := by
  unfold stackStep
  cases hm : dictLookup m r.id with
  | some e => simp [dictLookup_dictSet_ne m r.id k _ h]
  | none => simp [dictLookup_append_single_ne m r.id k _ h]

theorem dictLookup_purposeStep_ne (m : ScoreDict) (r : ScoredPoint) (k : ℕ)
    (h : k ≠ r.id) : dictLookup (purposeStep m r) k = dictLookup m k :=
  dictLookup_dictSet_ne m r.id k _ h

theorem dictLookup_stackFold_ne (ss : List ScoredPoint) (m : ScoreDict) (k : ℕ)
    (h : k ∉ ss.map ScoredPoint.id) :
    dictLookup (ss.foldl stackStep m) k = dictLookup m k := by
  induction ss generalizing m with
  | nil => rfl
  | cons a ss ih =>
      simp only [List.map_cons, List.mem_cons, not_or] at h
      simp only [List.foldl_cons]
      rw [ih _ h.2, dictLookup_stackStep_ne m a k h.1]

theorem dictLookup_purposeFold_ne (ps : List ScoredPoint) (m : ScoreDict) (k : ℕ)
    (h : k ∉ ps.map ScoredPoint.id) :
    dictLookup (ps.foldl purposeStep m) k = dictLookup m k := by
  induction ps generalizing m with
  | nil => rfl
  | cons a ps ih =>
      simp only [List.map_cons, List.mem_cons, not_or] at h
      simp only [List.foldl_cons]
      rw [ih _ h.2, dictLookup_purposeStep_ne m a k h.1]

theorem dictLookup_purposeFold_mem (ps : List ScoredPoint) (m : ScoreDict)
    (r : ScoredPoint) (hp : (ps.map ScoredPoint.id).Nodup) (hr : r ∈ ps) :
    dictLookup (ps.foldl purposeStep m) r.id = some ⟨r.score, 0, r.payload⟩ := by
  induction ps generalizing m with
  | nil => cases hr
  | cons a ps ih =>
      simp only [List.map_cons, List.nodup_cons] at hp
      rcases List.mem_cons.mp hr with h | h
      · subst h
        simp only [List.foldl_cons]
        rw [dictLookup_purposeFold_ne ps _ r.id hp.1]
        exact dictLookup_dictSet_self m r.id _
      · exact ih _ hp.2 h

theorem dictLookup_stackFold_mem (ss : List ScoredPoint) (m : ScoreDict)
    (r : ScoredPoint) (hs : (ss.map ScoredPoint.id).Nodup) (hr : r ∈ ss)
    (hm : dictLookup m r.id = none) :
    dictLookup (ss.foldl stackStep m) r.id = some ⟨0, r.score, r.payload⟩ := by
  induction ss generalizing m with
  | nil => cases hr
  | cons a ss ih =>
      simp only [List.map_cons, List.nodup_cons] at hs
      rcases List.mem_cons.mp hr with h | h
      · subst h
        simp only [List.foldl_cons]
        rw [dictLookup_stackFold_ne ss _ r.id hs.1]
        unfold stackStep
        rw [hm]
        exact dictLookup_append_single_self m r.id _ hm
      · have hne : r.id ≠ a.id := by
          intro hid
          exact hs.1 (hid ▸ List.mem_map_of_mem ScoredPoint.id h)
        simp only [List.foldl_cons]
        exact ih _ hs.2 h (by rw [dictLookup_stackStep_ne m a r.id hne]; exact hm)

theorem dictLookup_purposeStep_isSome (m : ScoreDict) (r : ScoredPoint) (k : ℕ)
    (h : (dictLookup m k).isSome) : (dictLookup (purposeStep m r) k).isSome := by
  by_cases hk : k = r.id
  · subst hk
    rw [purposeStep, dictLookup_dictSet_self]
    rfl
  · rwa [dictLookup_purposeStep_ne m r k hk]

theorem dictLookup_stackStep_self_of_some (m : ScoreDict) (r : ScoredPoint)
    (e : MergedEntry) (hm : dictLookup m r.id = some e) :
    dictLookup (stackStep m r) r.id = some { e with stack := r.score } := by
  unfold stackStep
  rw [hm]
  exact dictLookup_dictSet_self m r.id _

theorem dictLookup_stackStep_self_of_none (m : ScoreDict) (r : ScoredPoint)
    (hm : dictLookup m r.id = none) :
    dictLookup (stackStep m r) r.id = some ⟨0, r.score, r.payload⟩ := by
  unfold stackStep
  rw [hm]
  exact dictLookup_append_single_self m r.id _ hm

theorem dictLookup_stackStep_isSome (m : ScoreDict) (r : ScoredPoint) (k : ℕ)
    (h : (dictLookup m k).isSome) : (dictLookup (stackStep m r) k).isSome := by
  by_cases hk : k = r.id
  · subst hk
    cases hm : dictLookup m r.id with
    | some e => rw [dictLookup_stackStep_self_of_some m r e hm]; rfl
    | none => rw [hm] at h; cases h
  · rwa [dictLookup_stackStep_ne m r k hk]

theorem dictLookup_purposeFold_isSome (ps : List ScoredPoint) (m : ScoreDict) (k : ℕ)
    (h : (dictLookup m k).isSome) : (dictLookup (ps.foldl purposeStep m) k).isSome := by
  induction ps generalizing m with
  | nil => exact h
  | cons a ps ih => exact ih _ (dictLookup_purposeStep_isSome m a k h)

theorem dictLookup_stackFold_isSome (ss : List ScoredPoint) (m : ScoreDict) (k : ℕ)
    (h : (dictLookup m k).isSome) : (dictLookup (ss.foldl stackStep m) k).isSome := by
  induction ss generalizing m with
  | nil => exact h
  | cons a ss ih => exact ih _ (dictLookup_stackStep_isSome m a k h)

theorem dictLookup_purposeFold_mem_isSome (ps : List ScoredPoint) (m : ScoreDict)
    (r : ScoredPoint) (hr : r ∈ ps) :
    (dictLookup (ps.foldl purposeStep m) r.id).isSome := by
  induction ps generalizing m with
  | nil => cases hr
  | cons a ps ih =>
      rcases List.mem_cons.mp hr with h | h
      · subst h
        exact dictLookup_purposeFold_isSome ps _ r.id
          (by rw [purposeStep, dictLookup_dictSet_self]; rfl)
      · exact ih _ h

theorem dictLookup_stackFold_mem_isSome (ss : List ScoredPoint) (m : ScoreDict)
    (r : ScoredPoint) (hr : r ∈ ss) :
    (dictLookup (ss.foldl stackStep m) r.id).isSome := by
  induction ss generalizing m with
  | nil => cases hr
  | cons a ss ih =>
      rcases List.mem_cons.mp hr with h | h
      · subst h
        refine dictLookup_stackFold_isSome ss _ r.id ?_
        cases hm : dictLookup m r.id with
        | some e => rw [dictLookup_stackStep_self_of_some m r e hm]; rfl
        | none => rw [dictLookup_stackStep_self_of_none m r hm]; rfl
      · exact ih _ h

/-! ## Dict key lemmas: the merge never duplicates a candidate identifier -/

theorem dictLookup_eq_none_iff (m : ScoreDict) (k : ℕ) :
    dictLookup m k = none ↔ k ∉ dictKeys m := by
  induction m with
  | nil => simp [dictLookup, dictKeys]
  | cons p m ih =>
      by_cases hp : p.1 = k
      · simp [dictLookup, dictKeys, hp]
      · simp [dictLookup, dictKeys, hp, ih, Ne.symm hp]

theorem dictKeys_dictSet (m : ScoreDict) (k : ℕ) (v : MergedEntry) :
    dictKeys (dictSet m k v) = if k ∈ dictKeys m then dictKeys m else dictKeys m ++ [k] := by
  induction m with
  | nil => simp [dictSet, dictKeys]
  | cons p m ih =>
      by_cases hp : p.1 = k
      · simp [dictSet, dictKeys, hp]
      · simp only [dictSet, if_neg hp, dictKeys, List.map_cons] at ih ⊢
        rw [ih]
        by_cases hk : k ∈ m.map Prod.fst
        · simp [hk, Ne.symm hp]
        · simp [hk, Ne.symm hp]

theorem nodup_dictKeys_dictSet (m : ScoreDict) (k : ℕ) (v : MergedEntry)
    (h : (dictKeys m).Nodup) : (dictKeys (dictSet m k v)).Nodup := by
  rw [dictKeys_dictSet]
  by_cases hk : k ∈ dictKeys m
  · simpa [hk] using h
  · simp only [if_neg hk]
    rw [List.nodup_append]
    refine ⟨h, List.nodup_singleton k, ?_⟩
    intro a ha hb
    rw [List.mem_singleton] at hb
    subst hb
    exact hk ha

theorem nodup_dictKeys_purposeStep (m : ScoreDict) (r : ScoredPoint)
    (h : (dictKeys m).Nodup) : (dictKeys (purposeStep m r)).Nodup :=
  nodup_dictKeys_dictSet m r.id _ h

theorem nodup_dictKeys_stackStep (m : ScoreDict) (r : ScoredPoint)
    (h : (dictKeys m).Nodup) : (dictKeys (stackStep m r)).Nodup := by
  unfold stackStep
  cases hm : dictLookup m r.id with
  | some e => exact nodup_dictKeys_dictSet m r.id _ h
  | none =>
      have hk : r.id ∉ dictKeys m := (dictLookup_eq_none_iff m r.id).mp hm
      simp only [dictKeys, List.map_append, List.map_cons, List.map_nil]
      rw [List.nodup_append]
      refine ⟨h, List.nodup_singleton _, ?_⟩
      intro a ha hb
      rw [List.mem_singleton] at hb
      subst hb
      exact hk ha

theorem nodup_dictKeys_mergeResults (ps ss : List ScoredPoint) :
    (dictKeys (mergeResults ps ss)).Nodup := by
  have h1 : ∀ (l : List ScoredPoint) (m : ScoreDict), (dictKeys m).Nodup →
      (dictKeys (l.foldl purposeStep m)).Nodup := by
    intro l
    induction l with
    | nil => exact fun m h => h
    | cons a l ih => exact fun m h => ih _ (nodup_dictKeys_purposeStep m a h)
  have h2 : ∀ (l : List ScoredPoint) (m : ScoreDict), (dictKeys m).Nodup →
      (dictKeys (l.foldl stackStep m)).Nodup := by
    intro l
    induction l with
    | nil => exact fun m h => h
    | cons a l ih => exact fun m h => ih _ (nodup_dictKeys_stackStep m a h)
  exact h2 ss _ (h1 ps [] (by simp [dictKeys]))

theorem dictLookup_of_mem (m : ScoreDict) (k : ℕ) (e : MergedEntry)
    (hm : (dictKeys m).Nodup) (h : (k, e) ∈ m) : dictLookup m k = some e := by
  induction m with
  | nil => cases h
  | cons p m ih =>
      simp only [dictKeys, List.map_cons, List.nodup_cons] at hm
      rcases List.mem_cons.mp h with hh | hh
      · subst hh
        simp [dictLookup]
      · have hp : p.1 ≠ k := by
          intro hk
          exact hm.1 (hk ▸ (List.mem_map_of_mem Prod.fst hh : k ∈ m.map Prod.fst))
        simp only [dictLookup, if_neg hp]
        exact ih hm.2 hh

/-! ## Sort lemmas: `sortDesc` is a stable descending sort -/

theorem mem_insertDesc (x z : SearchResult) (l : List SearchResult) :
    z ∈ insertDesc x l ↔ z = x ∨ z ∈ l := by
  induction l with
  | nil => simp [insertDesc]
  | cons y l ih =>
      by_cases h : y.score ≤ x.score
      · simp [insertDesc, h]
      · simp [insertDesc, h, ih]
        tauto

theorem mem_sortDesc (z : SearchResult) (l : List SearchResult) :
    z ∈ sortDesc l ↔ z ∈ l := by
  induction l with
  | nil => simp [sortDesc]
  | cons x l ih => simp [sortDesc, mem_insertDesc, ih]

theorem sorted_insertDesc (x : SearchResult) (l : List SearchResult)
    (h : l.Sorted fun a b => b.score ≤ a.score) :
    (insertDesc x l).Sorted fun a b => b.score ≤ a.score := by
  induction l with
  | nil => simp [insertDesc]
  | cons y l ih =>
      rw [List.sorted_cons] at h
      by_cases hxy : y.score ≤ x.score
      · rw [insertDesc, if_pos hxy, List.sorted_cons]
        refine ⟨fun b hb => ?_, List.sorted_cons.mpr h⟩
        rcases List.mem_cons.mp hb with hb | hb
        · exact hb ▸ hxy
        · exact le_trans (h.1 b hb) hxy
      · rw [insertDesc, if_neg hxy, List.sorted_cons]
        refine ⟨fun b hb => ?_, ih h.2⟩
        rcases (mem_insertDesc x b l).mp hb with hb | hb
        · exact hb ▸ le_of_lt (lt_of_not_le hxy)
        · exact h.1 b hb

theorem sorted_sortDesc (l : List SearchResult) :
    (sortDesc l).Sorted fun a b => b.score ≤ a.score := by
  induction l with
  | nil => simp [sortDesc]
  | cons x l ih => exact sorted_insertDesc x _ ih

/-! ## Claim C1 -/

/-- C1: in the dual-vector merge of `search_similar`, every candidate
returned by exactly one of the two vector-space queries appears in the merged
candidate map with the missing dimension's score set to `0.0` and its payload
preserved; no candidate from either result set is excluded from the merge.
In particular, a candidate in the purpose top-K but not the stack top-K gets
`stack_score = 0.0`. -/
theorem C1_merge_preserves_single_space_candidates
    (ps ss : List ScoredPoint)
    (hp : (ps.map ScoredPoint.id).Nodup) (hs : (ss.map ScoredPoint.id).Nodup) :
    (∀ r ∈ ps, r.id ∉ ss.map ScoredPoint.id →
        dictLookup (mergeResults ps ss) r.id = some ⟨r.score, 0, r.payload⟩) ∧
    (∀ r ∈ ss, r.id ∉ ps.map ScoredPoint.id →
        dictLookup (mergeResults ps ss) r.id = some ⟨0, r.score, r.payload⟩) ∧
    (∀ r : ScoredPoint, r ∈ ps ∨ r ∈ ss →
        (dictLookup (mergeResults ps ss) r.id).isSome) := by
  refine ⟨?_, ?_, ?_⟩
  · intro r hr hns
    unfold mergeResults
    rw [dictLookup_stackFold_ne ss _ r.id hns]
    exact dictLookup_purposeFold_mem ps [] r hp hr
  · intro r hr hnp
    unfold mergeResults
    refine dictLookup_stackFold_mem ss _ r hs hr ?_
    rw [dictLookup_purposeFold_ne ps [] r.id hnp]
    rfl
  · intro r hr
    unfold mergeResults
    rcases hr with hr | hr
    · exact dictLookup_stackFold_isSome ss _ r.id
        (dictLookup_purposeFold_mem_isSome ps [] r hr)
    · exact dictLookup_stackFold_mem_isSome ss _ r hr

/-- Witness for C1 at a concrete pair of result sets: candidate 1 only in the
purpose set keeps its payload with `stack = 0`, candidate 2 only in the stack
set keeps its payload with `purpose = 0`. -/
theorem C1_witness :
    dictLookup (mergeResults [⟨1, 9/10, ⟨"a", 3⟩⟩] [⟨2, 1/2, ⟨"b", 4⟩⟩]) 1 =
      some ⟨9/10, 0, ⟨"a", 3⟩⟩ ∧
    dictLookup (mergeResults [⟨1, 9/10, ⟨"a", 3⟩⟩] [⟨2, 1/2, ⟨"b", 4⟩⟩]) 2 =
      some ⟨0, 1/2, ⟨"b", 4⟩⟩ := by
  have h := C1_merge_preserves_single_space_candidates
    [⟨1, 9/10, ⟨"a", 3⟩⟩] [⟨2, 1/2, ⟨"b", 4⟩⟩] (by simp) (by simp)
  exact ⟨h.1 ⟨1, 9/10, ⟨"a", 3⟩⟩ (by simp) (by simp [ScoredPoint.id]),
    h.2.1 ⟨2, 1/2, ⟨"b", 4⟩⟩ (by simp) (by simp [ScoredPoint.id])⟩

/-! ## Claim C2 -/

/-- C2 counterexample: the claimed identity between `search_similar` at
weights `1, 0` with `minScore 0` and ordering the merged candidates by
`purpose_score` alone is false of the code for a negative purpose score
(cosine scores of unit vectors range over `[-1, 1]`): the code's
`final >= min_score` filter at `min_score = 0` drops a candidate with
purpose score `-0.5`, while purpose-only ordering keeps it. -/
theorem C2_counterexample :
    search_similar [⟨1, -1/2, ⟨"neg", 0⟩⟩] [] 1 0 5 0 ≠
      purposeOnlyRanking [⟨1, -1/2, ⟨"neg", 0⟩⟩] [] 5 := by
  have h1 : search_similar [⟨1, -1/2, ⟨"neg", 0⟩⟩] [] 1 0 5 0 = [] := by
    norm_num [search_similar, rankedOf, mergeResults, purposeStep, stackStep, dictLookup,
      dictSet, finalScore, sortDesc, insertDesc]
  have h2 : purposeOnlyRanking [⟨1, -1/2, ⟨"neg", 0⟩⟩] [] 5 =
      [⟨1, -1/2, ⟨"neg", 0⟩⟩] := by
    norm_num [purposeOnlyRanking, mergeResults, purposeStep, stackStep, dictLookup,
      dictSet, sortDesc, insertDesc]
  rw [h1, h2]
  simp

/-- C2 (amended): every result produced by `search_similar` carries the
score `weight_purpose * purpose_score + weight_stack * stack_score` of its
merged entry — the final score is this linear function of the two scores,
for all weight pairs, unconditionally. With `weight_purpose = 1`,
`weight_stack = 0` and `minScore = 0`, the output of `search_similar` is
exactly the merged candidates ordered by `purpose_score` alone, provided
every merged purpose score is nonnegative (so the `final >= min_score`
filter at `0` drops nothing); for a negative purpose score the identity
fails (see the counterexample). -/
theorem C2_weighted_score_linear_and_degenerate
    (ps ss : List ScoredPoint) (wP wS minScore : ℚ) (limit : ℕ) :
    (∀ r ∈ search_similar ps ss wP wS limit minScore,
        ∃ e, dictLookup (mergeResults ps ss) r.id = some e ∧
          r.score = wP * e.purpose + wS * e.stack ∧ r.payload = e.payload) ∧
    ((∀ p ∈ mergeResults ps ss, 0 ≤ p.2.purpose) →
      search_similar ps ss 1 0 limit 0 = purposeOnlyRanking ps ss limit) := by
  constructor
  · intro r hr
    have h1 : r ∈ sortDesc (rankedOf ps ss wP wS minScore) := List.take_subset _ _ hr
    have h2 : r ∈ rankedOf ps ss wP wS minScore := (mem_sortDesc _ _).mp h1
    have h3 := List.mem_filter.mp h2
    rcases List.mem_map.mp h3.1 with ⟨p, hpmem, hpr⟩
    subst hpr
    exact ⟨p.2, dictLookup_of_mem _ p.1 p.2 (nodup_dictKeys_mergeResults ps ss) hpmem,
      rfl, rfl⟩
  · intro h0
    have hmap : (mergeResults ps ss).map
        (fun p => SearchResult.mk p.1 (finalScore 1 0 p.2) p.2.payload) =
        (mergeResults ps ss).map (fun p => SearchResult.mk p.1 p.2.purpose p.2.payload) :=
      List.map_congr_left fun p _ => by simp [finalScore]
    have hfil : ((mergeResults ps ss).map
        (fun p => SearchResult.mk p.1 p.2.purpose p.2.payload)).filter
          (fun r => (0 : ℚ) ≤ r.score) =
        (mergeResults ps ss).map (fun p => SearchResult.mk p.1 p.2.purpose p.2.payload) := by
      rw [List.filter_eq_self]
      intro a ha
      rcases List.mem_map.mp ha with ⟨p, hpmem, hpa⟩
      subst hpa
      simpa using h0 p hpmem
    unfold search_similar purposeOnlyRanking rankedOf
    rw [hmap, hfil]

/-- Witness for C2: at weights `1, 0` and `minScore 0` on a concrete pair of
result sets the `search_similar` output coincides with ranking the merged
candidates by purpose score alone. -/
theorem C2_witness :
    search_similar [⟨1, 1/2, ⟨"a", 3⟩⟩] [⟨2, 1/3, ⟨"b", 4⟩⟩] 1 0 5 0 =
      purposeOnlyRanking [⟨1, 1/2, ⟨"a", 3⟩⟩] [⟨2, 1/3, ⟨"b", 4⟩⟩] 5 := by
  refine (C2_weighted_score_linear_and_degenerate
    [⟨1, 1/2, ⟨"a", 3⟩⟩] [⟨2, 1/3, ⟨"b", 4⟩⟩] 1 0 0 5).2 ?_
  intro p hp
  norm_num [mergeResults, purposeStep, stackStep, dictLookup, dictSet] at hp
  rcases hp with rfl | rfl <;> norm_num

/-! ## Claim C3 -/

/-- C3 counterexample: the claim says ties in `similarity_score` are
broken by descending star count (then identifier). The code sorts by score
only (`ranked.sort(key=lambda x: x.score, reverse=True)`), so with two
equal-scored candidates where the lower-starred one was merged first, the
output is not ordered the way the claim requires: the 10-star candidate
precedes the 100-star candidate. -/
theorem C3_counterexample :
    ¬ (search_similar [⟨1, 1/2, ⟨"low-stars", 10⟩⟩, ⟨2, 1/2, ⟨"high-stars", 100⟩⟩]
        [] 1 0 10 0).Sorted specTieOrder := by
  have hout : search_similar [⟨1, 1/2, ⟨"low-stars", 10⟩⟩, ⟨2, 1/2, ⟨"high-stars", 100⟩⟩]
      [] 1 0 10 0 =
      [⟨1, 1/2, ⟨"low-stars", 10⟩⟩, ⟨2, 1/2, ⟨"high-stars", 100⟩⟩] := by
    norm_num [search_similar, rankedOf, mergeResults, purposeStep, stackStep, dictLookup,
      dictSet, finalScore, sortDesc, insertDesc]
  rw [hout]
  intro hsort
  have h1 := (List.sorted_cons.mp hsort).1 _ (List.mem_cons_self _ _)
  rcases h1 with h | ⟨-, h | ⟨h2, -⟩⟩
  · norm_num at h
  · norm_num at h
  · norm_num at h2

/-- C3 (amended): the result list of `search_similar` is sorted in
descending order of `similarity_score` — ties retain the merge insertion
order via the stable sort, with no star-count or identifier tie-break — and
is truncated to at most `limit` entries. -/
theorem C3_sorted_and_truncated (ps ss : List ScoredPoint)
    (wP wS minScore : ℚ) (limit : ℕ) :
    (search_similar ps ss wP wS limit minScore).Sorted (fun a b => b.score ≤ a.score) ∧
    (search_similar ps ss wP wS limit minScore).length ≤ limit := by
  constructor
  · exact List.Pairwise.sublist (List.take_sublist _ _) (sorted_sortDesc _)
  · exact List.length_take_le _ _

/-! ## Claim C4 -/

/-- C4 counterexample: `search_similar` does not exclude the query
repository by identifier (it is not even given that identifier). When the
query repository — here identifier `1`, matching itself with purpose score
`1.0` — appears in a result set with weighted score above `minScore`, it is
returned, contradicting the claim that every output identifier differs from
the query repository's. -/
theorem C4_counterexample :
    ¬ (∀ r ∈ search_similar [⟨1, 1, ⟨"query-repo", 5⟩⟩] [] (7/10) (3/10) 20 (3/10),
        r.id ≠ 1) := by
  intro h
  have hout : search_similar [⟨1, 1, ⟨"query-repo", 5⟩⟩] [] (7/10) (3/10) 20 (3/10) =
      [⟨1, 7/10, ⟨"query-repo", 5⟩⟩] := by
    norm_num [search_similar, rankedOf, mergeResults, purposeStep, stackStep, dictLookup,
      dictSet, finalScore, sortDesc, insertDesc]
  exact h ⟨1, 7/10, ⟨"query-repo", 5⟩⟩ (by rw [hout]; exact List.mem_singleton.mpr rfl) rfl

/-- C4 (amended): a merged candidate appears in the ranked output of
`search_similar` (before the `limit` truncation) if and only if its weighted
`similarity_score` is at least `minScore`; every returned result clears
`minScore`. The query-repository exclusion happens in the API search flow,
outside `search_similar`. Example: `purpose 0.9 / stack 0.2` at weights
`0.7/0.3` scores `0.69` — retained at `minScore 0.3`, dropped at `0.7`
(see the witness). -/
theorem C4_minScore_filter (ps ss : List ScoredPoint)
    (wP wS minScore : ℚ) (limit : ℕ) :
    (∀ r ∈ search_similar ps ss wP wS limit minScore, minScore ≤ r.score) ∧
    (∀ (i : ℕ) (e : MergedEntry), (i, e) ∈ mergeResults ps ss →
      ((SearchResult.mk i (finalScore wP wS e) e.payload ∈
          sortDesc (rankedOf ps ss wP wS minScore)) ↔
        minScore ≤ finalScore wP wS e)) := by
  constructor
  · intro r hr
    have h1 : r ∈ sortDesc (rankedOf ps ss wP wS minScore) := List.take_subset _ _ hr
    have h2 := (mem_sortDesc _ _).mp h1
    simpa using (List.mem_filter.mp h2).2
  · intro i e he
    rw [mem_sortDesc]
    unfold rankedOf
    rw [List.mem_filter]
    constructor
    · rintro ⟨-, h⟩
      simpa using h
    · intro h
      exact ⟨List.mem_map.mpr ⟨(i, e), he, rfl⟩, by simpa using h⟩

/-- Witness for C4 (amended), realizing the spec's scenario: the candidate
with `purpose_score = 0.9`, `stack_score = 0.2` at weights `0.7/0.3` has
weighted score `0.69`; it is in the ranked output at `minScore = 0.3` and
not in it at `minScore = 0.7`. -/
theorem C4_witness :
    (SearchResult.mk 2 (69/100) ⟨"cand", 7⟩ ∈
      sortDesc (rankedOf [⟨2, 9/10, ⟨"cand", 7⟩⟩] [⟨2, 2/10, ⟨"cand", 7⟩⟩]
        (7/10) (3/10) (3/10))) ∧
    ¬ (SearchResult.mk 2 (69/100) ⟨"cand", 7⟩ ∈
      sortDesc (rankedOf [⟨2, 9/10, ⟨"cand", 7⟩⟩] [⟨2, 2/10, ⟨"cand", 7⟩⟩]
        (7/10) (3/10) (7/10))) := by
  have hmem : ((2 : ℕ), (⟨9/10, 2/10, ⟨"cand", 7⟩⟩ : MergedEntry)) ∈
      mergeResults [⟨2, 9/10, ⟨"cand", 7⟩⟩] [⟨2, 2/10, ⟨"cand", 7⟩⟩] := by
    norm_num [mergeResults, purposeStep, stackStep, dictLookup, dictSet]
  have h1 := (C4_minScore_filter [⟨2, 9/10, ⟨"cand", 7⟩⟩] [⟨2, 2/10, ⟨"cand", 7⟩⟩]
    (7/10) (3/10) (3/10) 20).2 2 _ hmem
  have h2 := (C4_minScore_filter [⟨2, 9/10, ⟨"cand", 7⟩⟩] [⟨2, 2/10, ⟨"cand", 7⟩⟩]
    (7/10) (3/10) (7/10) 20).2 2 _ hmem
  have heq : finalScore (7/10) (3/10) (⟨9/10, 2/10, ⟨"cand", 7⟩⟩ : MergedEntry) = 69/100 := by
    norm_num [finalScore]
  rw [heq] at h1 h2
  exact ⟨h1.mpr (by norm_num), fun hm => absurd (h2.mp hm) (by norm_num)⟩

/-! ## Frontend: API types (frontend/src/types/api.ts) -/

/-- One element of the response results list (`SearchResultItem`). -/
structure SearchResultItemM where
  full_name : String
  url : String
  description : Option String
  topics : List String
  language_primary : Option String
  stars : ℤ
  similarity_score : ℚ
  purpose_score : ℚ
  stack_score : ℚ
deriving DecidableEq, Repr

/-- The parsed `SearchResponse`: query subject summary, ordered results,
indexed count, elapsed search time. -/
structure SearchResponseM where
  query_repo_full_name : String
  query_repo_description : Option String
  results : List SearchResultItemM
  indexed_count : ℤ
  search_time_ms : ℚ
deriving DecidableEq, Repr

/-- The `SearchRequest` interface: exactly these five fields. -/
structure SearchRequestM where
  repo_url : String
  weight_purpose : ℚ
  weight_stack : ℚ
  limit : ℚ
  min_stars : ℚ
deriving DecidableEq, Repr

/-! ## Frontend: the API client (frontend/src/api/client.ts) -/

/-- JSON scalar values appearing in a serialized request body. -/
inductive JsonValue
  | str (s : String)
  | num (q : ℚ)
deriving DecidableEq, Repr

/-- Serialization `JSON.stringify(params)` of a `SearchRequest`: its fields,
in declaration order. -/
def searchRequestBody (p : SearchRequestM) : List (String × JsonValue) :=
  [("repo_url", JsonValue.str p.repo_url),
   ("weight_purpose", JsonValue.num p.weight_purpose),
   ("weight_stack", JsonValue.num p.weight_stack),
   ("limit", JsonValue.num p.limit),
   ("min_stars", JsonValue.num p.min_stars)]

/-- An outgoing HTTP request as assembled by the client. -/
structure HttpRequest where
  url : String
  method : String
  contentType : String
  body : List (String × JsonValue)
deriving DecidableEq, Repr

/-- The request `searchRepos` issues:
`POST {API_BASE}/api/search` with the JSON-encoded params. -/
def searchReposRequest (apiBase : String) (p : SearchRequestM) : HttpRequest :=
  { url := apiBase ++ "/api/search"
    method := "POST"
    contentType := "application/json"
    body := searchRequestBody p }

/-- Parse result of `res.json()` on a failed response: its `detail` field,
when present. -/
structure ErrorBody where
  detail : Option String
deriving DecidableEq, Repr

/-- Outcome of the underlying `fetch` of a search request: an ok response
with a parsed body, a non-ok response (with the error-body parse result,
`none` when parsing failed), or a rejected fetch. -/
inductive FetchOutcome
  | success (resp : SearchResponseM)
  | httpError (body : Option ErrorBody)
  | networkError (msg : String)
deriving DecidableEq, Repr

/-- The thrown message for a non-ok response:
`res.json().catch(() => ({ detail: "Search failed" }))` followed by
`err.detail || "Search failed"` (JS `||` also replaces an empty string). -/
def searchErrorMessage (body : Option ErrorBody) : String :=
  match body with
  | none => "Search failed"
  | some b =>
      match b.detail with
      | some d => if d = "" then "Search failed" else d
      | none => "Search failed"

/-- The `searchRepos` client: resolves with the parsed `SearchResponse` on
`res.ok`, otherwise throws an `Error` carrying the detail message; a rejected
fetch propagates its own error. -/
def searchRepos : FetchOutcome → Except String SearchResponseM
  | .success r => Except.ok r
  | .httpError body => Except.error (searchErrorMessage body)
  | .networkError msg => Except.error msg

/-! ## Frontend: App state (frontend/src/App.tsx) -/

/-- The `App` component state relevant to a search. -/
structure AppState where
  loading : Bool
  error : Option String
  searchResult : Option SearchResponseM
  purposeWeight : ℚ
  indexedCount : ℤ
deriving DecidableEq, Repr

/-- Initial `useState` values: not loading, no error, no result, purpose
weight `0.7`, indexed count `0`. -/
def initialAppState : AppState :=
  { loading := false
    error := none
    searchResult := none
    purposeWeight := 0.7
    indexedCount := 0 }

/-- State left by `handleSearch` after the `searchRepos` promise settles:
on success, the result is stored and the error cleared; on a thrown error,
its message is stored, the result stays cleared; `loading` is reset in
`finally`. -/
def handleSearch (s : AppState) (outcome : FetchOutcome) : AppState :=
  match searchRepos outcome with
  | Except.ok r =>
      { s with
        loading := false
        error := none
        searchResult := some r
        indexedCount := r.indexed_count }
  | Except.error msg =>
      { s with
        loading := false
        error := some msg
        searchResult := none }

/-- What the `App` body renders: the loading state, the `role="alert"` error
banner content (`error && ...`), and the results list
(`searchResult && !loading && ...`). -/
structure RenderedPage where
  showsLoading : Bool
  alertMessage : Option String
  resultsShown : Option SearchResponseM
deriving DecidableEq, Repr

/-- The render logic of `App`. -/
def render (s : AppState) : RenderedPage :=
  { showsLoading := s.loading
    alertMessage := s.error
    resultsShown := if s.loading then none else s.searchResult }

/-! ## Frontend: weight arithmetic (App.tsx and WeightSliders.tsx) -/

/-- JS `Math.round(x) = floor(x + 0.5)`. -/
def mathRound (q : ℚ) : ℤ := ⌊q + 1 / 2⌋

theorem mathRound_eq_round (q : ℚ) : mathRound q = round q := (round_eq q).symm

/-- `Math.round((1 - purposeWeight) * 100) / 100`: the stack weight computed
from the purpose weight (in both `App.handleSearch` and `WeightSliders`). -/
def stackWeightOf (purposeWeight : ℚ) : ℚ :=
  (mathRound ((1 - purposeWeight) * 100) : ℚ) / 100

/-- The search request `handleSearch` builds for the current purpose weight. -/
def appSearchRequest (purposeWeight : ℚ) (url : String) : SearchRequestM :=
  { repo_url := url
    weight_purpose := purposeWeight
    weight_stack := stackWeightOf purposeWeight
    limit := 20
    min_stars := 0 }

/-- Slider `onChange`: `Number(e.target.value) / 100` for position `n`. -/
def sliderWeight (n : ℕ) : ℚ := (n : ℚ) / 100

/-- Displayed `purposePct = Math.round(purposeWeight * 100)`. -/
def purposePct (purposeWeight : ℚ) : ℤ := mathRound (purposeWeight * 100)

/-- Displayed `stackPct = Math.round(stackWeight * 100)`. -/
def stackPct (purposeWeight : ℚ) : ℤ := mathRound (stackWeightOf purposeWeight * 100)

/-! ## Claim C5 -/

/-- C5: for every non-ok search response, `searchRepos` throws the body's
`detail` message (with the `"Search failed"` fallback when the body cannot
be parsed) and never resolves with a result; `App.handleSearch` stores that
message in the error state, and the page renders the `role="alert"` banner
with it instead of a results list. -/
theorem C5_search_failure_surfaces_error (body : Option ErrorBody) (s : AppState) :
    searchRepos (FetchOutcome.httpError body) =
      Except.error (searchErrorMessage body) ∧
    (∀ r, searchRepos (FetchOutcome.httpError body) ≠ Except.ok r) ∧
    (handleSearch s (FetchOutcome.httpError body)).error =
      some (searchErrorMessage body) ∧
    (render (handleSearch s (FetchOutcome.httpError body))).alertMessage =
      some (searchErrorMessage body) ∧
    (render (handleSearch s (FetchOutcome.httpError body))).resultsShown = none ∧
    (body = none → searchErrorMessage body = "Search failed") := by
  refine ⟨rfl, ?_, rfl, rfl, rfl, ?_⟩
  · intro r h
    simp [searchRepos] at h
  · rintro rfl
    rfl

/-- Witness for C5: a response with `detail: "Repository not found"` puts
exactly that message in the error state and the alert banner; an unparseable
body yields the `"Search failed"` fallback. -/
theorem C5_witness :
    (handleSearch initialAppState
      (FetchOutcome.httpError (some ⟨some "Repository not found"⟩))).error =
      some "Repository not found" ∧
    (render (handleSearch initialAppState (FetchOutcome.httpError none))).alertMessage =
      some "Search failed" ∧
    (render (handleSearch initialAppState
      (FetchOutcome.httpError (some ⟨some "Repository not found"⟩)))).resultsShown = none := by
  have h1 := C5_search_failure_surfaces_error (some ⟨some "Repository not found"⟩)
    initialAppState
  have h2 := C5_search_failure_surfaces_error none initialAppState
  refine ⟨?_, ?_, h1.2.2.2.2.1⟩
  · rw [h1.2.2.1]
    simp [searchErrorMessage]
  · rw [h2.2.2.2.1]
    rfl

/-! ## Claim C6 -/

/-- C6: `searchRepos` issues a `POST` to `/api/search` whose JSON body has
exactly the fields `repo_url`, `weight_purpose`, `weight_stack`, `limit`,
`min_stars` (with the values of the given request), and on an ok response
resolves with the parsed `SearchResponse` (query subject summary, ordered
results, indexed count, search time). -/
theorem C6_search_request_shape (apiBase : String) (p : SearchRequestM)
    (r : SearchResponseM) :
    (searchReposRequest apiBase p).url = apiBase ++ "/api/search" ∧
    (searchReposRequest apiBase p).method = "POST" ∧
    (searchReposRequest apiBase p).contentType = "application/json" ∧
    (searchReposRequest apiBase p).body.map Prod.fst =
      ["repo_url", "weight_purpose", "weight_stack", "limit", "min_stars"] ∧
    (searchReposRequest apiBase p).body =
      [("repo_url", JsonValue.str p.repo_url),
       ("weight_purpose", JsonValue.num p.weight_purpose),
       ("weight_stack", JsonValue.num p.weight_stack),
       ("limit", JsonValue.num p.limit),
       ("min_stars", JsonValue.num p.min_stars)] ∧
    searchRepos (FetchOutcome.success r) = Except.ok r :=
  ⟨rfl, rfl, rfl, rfl, rfl, rfl⟩

/-! ## Claim C7 -/

/-- C7: with the slider untouched the purpose weight is its initial `0.7`,
and the first search request carries `weight_purpose = 0.7` and
`weight_stack = Math.round((1 - 0.7) * 100) / 100 = 0.3`, matching the
default score weights `0.7/0.3`. -/
theorem C7_default_weights (url : String) :
    initialAppState.purposeWeight = 7 / 10 ∧
    (appSearchRequest initialAppState.purposeWeight url).weight_purpose = 7 / 10 ∧
    (appSearchRequest initialAppState.purposeWeight url).weight_stack = 3 / 10 := by
  refine ⟨by norm_num [initialAppState], by norm_num [appSearchRequest, initialAppState], ?_⟩
  show stackWeightOf initialAppState.purposeWeight = 3 / 10
  rw [stackWeightOf, mathRound_eq_round, initialAppState]
  norm_num [round_eq]

/-! ## Claim C8 -/

/-- C8: for every slider position `n ∈ {0, …, 100}`, the purpose weight is
`n/100`, the computed stack weight is `(100 - n)/100`, the weight pair sums
to exactly `1`, and the two displayed percentages are `n` and `100 - n`,
summing to `100`. -/
theorem C8_weights_sum_to_one (n : ℕ) (hn : n ≤ 100) :
    sliderWeight n = (n : ℚ) / 100 ∧
    stackWeightOf (sliderWeight n) = ((100 : ℚ) - n) / 100 ∧
    sliderWeight n + stackWeightOf (sliderWeight n) = 1 ∧
    purposePct (sliderWeight n) = n ∧
    stackPct (sliderWeight n) = (100 : ℤ) - n ∧
    purposePct (sliderWeight n) + stackPct (sliderWeight n) = 100 := by
  have key : ∀ m : ℤ, mathRound ((m : ℚ)) = m := fun m => by
    rw [mathRound_eq_round, round_intCast]
  have h2 : stackWeightOf (sliderWeight n) = ((100 : ℚ) - n) / 100 := by
    rw [stackWeightOf, sliderWeight]
    have harg : (1 - (n : ℚ) / 100) * 100 = ((100 - (n : ℤ) : ℤ) : ℚ) := by
      push_cast
      ring
    rw [harg, key]
    push_cast
    ring
  have h4 : purposePct (sliderWeight n) = n := by
    rw [purposePct, sliderWeight]
    have harg : (n : ℚ) / 100 * 100 = (((n : ℤ) : ℤ) : ℚ) := by
      push_cast
      ring
    rw [harg, key]
  have h5 : stackPct (sliderWeight n) = (100 : ℤ) - n := by
    rw [stackPct, h2]
    have harg : ((100 : ℚ) - n) / 100 * 100 = ((100 - (n : ℤ) : ℤ) : ℚ) := by
      push_cast
      ring
    rw [harg, key]
  refine ⟨rfl, h2, ?_, h4, h5, ?_⟩
  · rw [h2, sliderWeight, div_add_div_same]
    norm_num
  · rw [h4, h5]
    ring

/-- Witness for C8 at slider position `30`: weights `0.3` and `0.7` summing
to `1`, displayed percentages `30` and `70` summing to `100`. -/
theorem C8_witness :
    sliderWeight 30 + stackWeightOf (sliderWeight 30) = 1 ∧
    purposePct (sliderWeight 30) = 30 ∧
    stackPct (sliderWeight 30) = 70 ∧
    purposePct (sliderWeight 30) + stackPct (sliderWeight 30) = 100 := by
  have h := C8_weights_sum_to_one 30 (by norm_num)
  exact ⟨h.2.2.1, h.2.2.2.1, by rw [h.2.2.2.2.1]; norm_num, h.2.2.2.2.2⟩

/-! ## Frontend: SearchInput (frontend/src/components/SearchInput.tsx) -/

/-- Whitespace characters stripped by JS `String.prototype.trim` (the ASCII
ones that can occur in a typed repository reference). -/
def jsWhitespace (c : Char) : Bool :=
  c = ' ' || c = '\t' || c = '\n' || c = '\r' || c = '\x0b' || c = '\x0c'

/-- The string method `url.trim()`: remove leading and trailing whitespace. -/
def jsTrim (s : List Char) : List Char :=
  ((s.dropWhile jsWhitespace).reverse.dropWhile jsWhitespace).reverse

/-- The submit handler `if (url.trim()) onSearch(url.trim())`: the argument
passed to `onSearch`, when a call happens (JS strings are falsy exactly when
empty). -/
def handleSubmit (url : List Char) : Option (List Char) :=
  if jsTrim url = [] then none else some (jsTrim url)

/-- The submit button attribute `disabled={isLoading || !url.trim()}`. -/
def searchButtonDisabled (isLoading : Bool) (url : List Char) : Bool :=
  isLoading || (jsTrim url).isEmpty

theorem mem_of_mem_dropWhile {α : Type} {p : α → Bool} {s : List α} {c : α}
    (h : c ∈ s.dropWhile p) : c ∈ s := by
  rw [← List.takeWhile_append_dropWhile p s]
  exact List.mem_append_right _ h

theorem jsTrim_eq_nil_iff (s : List Char) :
    jsTrim s = [] ↔ ∀ c ∈ s, jsWhitespace c = true := by
  unfold jsTrim
  rw [List.reverse_eq_nil_iff, List.dropWhile_eq_nil_iff]
  constructor
  · intro h c hc
    rw [← List.takeWhile_append_dropWhile jsWhitespace s] at hc
    rcases List.mem_append.mp hc with h1 | h1
    · exact List.mem_takeWhile_imp h1
    · exact h _ (List.mem_reverse.mpr h1)
  · intro h c hc
    exact h c (mem_of_mem_dropWhile (List.mem_reverse.mp hc))

theorem jsTrim_decomposition (s : List Char) :
    ∃ pre post, s = pre ++ jsTrim s ++ post ∧
      (∀ c ∈ pre, jsWhitespace c = true) ∧ (∀ c ∈ post, jsWhitespace c = true) := by
  refine ⟨s.takeWhile jsWhitespace,
    ((s.dropWhile jsWhitespace).reverse.takeWhile jsWhitespace).reverse, ?_, ?_, ?_⟩
  · conv_lhs => rw [← List.takeWhile_append_dropWhile jsWhitespace s]
    rw [List.append_assoc]
    congr 1
    conv_lhs => rw [← List.reverse_reverse (s.dropWhile jsWhitespace),
      ← List.takeWhile_append_dropWhile jsWhitespace (s.dropWhile jsWhitespace).reverse]
    rw [List.reverse_append]
    rfl
  · exact fun c hc => List.mem_takeWhile_imp hc
  · exact fun c hc => List.mem_takeWhile_imp (List.mem_reverse.mp hc)

/-! ## Claim C9 -/

/-- C9: submitting the search form calls `onSearch` exactly when the input
has at least one non-whitespace character, and then passes the input with
leading and trailing whitespace removed; a whitespace-only or empty input
produces no call, and the submit button is disabled for it. -/
theorem C9_submit_trims_and_gates (url : List Char) :
    ((handleSubmit url).isSome = true ↔ ∃ c ∈ url, jsWhitespace c = false) ∧
    (∀ t, handleSubmit url = some t → t = jsTrim url) ∧
    (handleSubmit url = none ↔ ∀ c ∈ url, jsWhitespace c = true) ∧
    (searchButtonDisabled false url = true ↔ ∀ c ∈ url, jsWhitespace c = true) ∧
    (∃ pre post, url = pre ++ jsTrim url ++ post ∧
      (∀ c ∈ pre, jsWhitespace c = true) ∧ (∀ c ∈ post, jsWhitespace c = true)) := by
  have hnil := jsTrim_eq_nil_iff url
  refine ⟨?_, ?_, ?_, ?_, jsTrim_decomposition url⟩
  · rw [handleSubmit]
    by_cases h : jsTrim url = []
    · rw [if_pos h]
      simp only [Option.isSome_none, Bool.false_eq_true, false_iff]
      rintro ⟨c, hc, hfalse⟩
      rw [hnil.mp h c hc] at hfalse
      cases hfalse
    · rw [if_neg h]
      simp only [Option.isSome_some, true_iff]
      by_contra hall
      push_neg at hall
      refine h (hnil.mpr fun c hc => ?_)
      cases hb : jsWhitespace c with
      | false => exact absurd hb (hall c hc)
      | true => rfl
  · intro t ht
    rw [handleSubmit] at ht
    by_cases h : jsTrim url = []
    · rw [if_pos h] at ht
      cases ht
    · rw [if_neg h] at ht
      exact (Option.some_inj.mp ht).symm
  · rw [handleSubmit]
    by_cases h : jsTrim url = []
    · simp only [if_pos h, true_iff]
      exact hnil.mp h
    · rw [if_neg h]
      constructor
      · intro ht
        cases ht
      · intro hall
        exact absurd (hnil.mpr hall) h
  · rw [searchButtonDisabled, Bool.false_or, List.isEmpty_iff]
    exact hnil

/-- Witness for C9: an input with a letter submits (trimmed), a whitespace-only
input does not submit and leaves the button disabled. -/
theorem C9_witness :
    (handleSubmit [' ', 'h', 'i', ' ']).isSome = true ∧
    handleSubmit [' ', ' '] = none ∧
    searchButtonDisabled false [' ', ' '] = true := by
  refine ⟨?_, ?_, ?_⟩
  · exact (C9_submit_trims_and_gates [' ', 'h', 'i', ' ']).1.mpr
      ⟨'h', by decide, by decide⟩
  · exact (C9_submit_trims_and_gates [' ', ' ']).2.2.1.mpr (by decide)
  · exact (C9_submit_trims_and_gates [' ', ' ']).2.2.2.1.mpr (by decide)

/-! ## Frontend: useTheme (frontend/src/hooks/useTheme.ts) -/

/-- The Theme union type: exactly the two literals. -/
inductive Theme
  | light
  | dark
deriving DecidableEq, Repr

/-- The string stored for each theme. -/
def themeToString : Theme → String
  | Theme.light => "light"
  | Theme.dark => "dark"

/-- The localStorage key used by the hook. -/
def themeStorageKey : String := "reporadar-theme"

/-- Initial theme: a saved value of exactly `"light"` or `"dark"` wins,
anything else falls back to the system `prefers-color-scheme` preference. -/
def getInitialTheme (saved : Option String) (systemPrefersDark : Bool) : Theme :=
  if saved = some "light" then Theme.light
  else if saved = some "dark" then Theme.dark
  else if systemPrefersDark then Theme.dark else Theme.light

/-- The value `toggleTheme` switches to. -/
def toggleThemeNext : Theme → Theme
  | Theme.light => Theme.dark
  | Theme.dark => Theme.light

/-- The `toggleTheme` callback: the new theme, plus the
`localStorage.setItem(STORAGE_KEY, next)` write it performs (key, value). -/
def toggleTheme (t : Theme) : Theme × String × String :=
  (toggleThemeNext t, themeStorageKey, themeToString (toggleThemeNext t))

/-! ## Claim C10 -/

/-- C10: the theme is always exactly light or dark, with any other stored
value falling back to the system preference; toggling twice restores the
original theme; and every toggle writes the new theme's string under the
localStorage key `reporadar-theme`. -/
theorem C10_theme_invariants :
    (∀ saved systemPrefersDark, saved ≠ some "light" → saved ≠ some "dark" →
        getInitialTheme saved systemPrefersDark =
          if systemPrefersDark then Theme.dark else Theme.light) ∧
    (∀ saved systemPrefersDark, getInitialTheme saved systemPrefersDark = Theme.light ∨
        getInitialTheme saved systemPrefersDark = Theme.dark) ∧
    (∀ t, toggleThemeNext (toggleThemeNext t) = t) ∧
    (∀ t, (toggleTheme t).1 = toggleThemeNext t ∧
        (toggleTheme t).2.1 = "reporadar-theme" ∧
        (toggleTheme t).2.2 = themeToString (toggleTheme t).1) := by
  refine ⟨?_, ?_, ?_, ?_⟩
  · intro saved sys h1 h2
    rw [getInitialTheme, if_neg h1, if_neg h2]
  · intro saved sys
    unfold getInitialTheme
    by_cases h1 : saved = some "light"
    · simp [h1]
    · by_cases h2 : saved = some "dark"
      · simp [h1, h2]
      · by_cases h3 : sys
        · simp [h1, h2, h3]
        · simp [h1, h2, h3]
  · intro t
    cases t <;> rfl
  · intro t
    exact ⟨rfl, rfl, rfl⟩

/-- Witness for C10: a stored value of `"solarized"` falls back to the system
preference (dark), and double-toggling from dark returns to dark. -/
theorem C10_witness :
    getInitialTheme (some "solarized") true = Theme.dark ∧
    toggleThemeNext (toggleThemeNext Theme.dark) = Theme.dark ∧
    (toggleTheme Theme.light).2.1 = "reporadar-theme" := by
  have h := C10_theme_invariants
  refine ⟨?_, h.2.2.1 Theme.dark, (h.2.2.2 Theme.light).2.1⟩
  rw [h.1 (some "solarized") true (by decide) (by decide)]
  rfl

end RepoRadar
